import Mathlib

/-
Verification development for the Pharma-FDA-Tracker repository.

The repository consists of several Python scrapers (tracker.py,
historical_scraper.py, clinicaltrials_scraper.py, sec_edgar_scraper.py,
label_scraper.py), each of which ends in its own copy of an
`update_database` merge routine, plus inline entity matching and date
normalization code.  This file shallowly embeds those routines:

* `Event` models the JSON event records (dict with fields company, drug,
  type, date, title, link, source, optional details).
* `update_database_core` models the shared shape of the five
  `update_database` functions; the per-file definitions instantiate it
  with each file's signature function and filtering choices, read off the
  Python sources line by line.
* Python's `list.sort(key=...)` is a stable sort; it is modelled by
  Mathlib's stable `List.insertionSort` on the same key (any two stable
  sorts with the same key agree).
* Python string comparison (`<`, `>=`) is lexicographic on code points,
  which coincides with Lean's `String` order used here.
-/

namespace PharmaTracker

/-- An event record, as built by every scraper in the repository
(`tracker.py` lines 144-152, 219-227, 356-364; `historical_scraper.py`
lines 201-209; `clinicaltrials_scraper.py` lines 134-142;
`sec_edgar_scraper.py` lines 231-250; `label_scraper.py` lines 145-154).
All scrapers set the seven main fields; only `label_scraper.py` adds a
`details` field, hence `Option`. -/
structure Event where
  company : String
  drug : String
  type : String
  date : String
  title : String
  link : String
  source : String
  details : Option String := none
deriving DecidableEq, Repr

/-- A dedup signature: the triple put into `existing_signatures`. -/
abbrev Sig := String × String × String

/-- Python's `<` on strings: lexicographic comparison of code points,
with a proper prefix ordered before its extensions. -/
def strLtList : List Char → List Char → Bool
  | _, [] => false
  | [], _ :: _ => true
  | a :: as, b :: bs =>
    if a.toNat < b.toNat then true
    else if b.toNat < a.toNat then false
    else strLtList as bs

/-- `s < t` for Python strings. -/
def strLt (s t : String) : Bool := strLtList s.data t.data

/-- `s <= t` for Python strings (total order: `¬ t < s`). -/
def strLe (s t : String) : Bool := !(strLt t s)

/-- The fixed cutoff literal `'2024-01-01'` appearing in every
`update_database`. -/
def cutoff : String := "2024-01-01"

/-- The sentinel `'9999-12-31'` used as sort key for falsy dates
(`existing_data.sort(key=lambda x: x.get('date') or '9999-12-31')`). -/
def maxDateSentinel : String := "9999-12-31"

/-- Python `item_date and item_date < '2024-01-01'`: a non-empty date
strictly below the cutoff. -/
def isStaleDate (d : String) : Bool := !(decide (d = "")) && strLt d cutoff

/-- The final write filter `e.get('date', '') >= '2024-01-01'`. -/
def dateOk (e : Event) : Bool := strLe cutoff e.date

/-- Sort key: `x.get('date') or '9999-12-31'` (empty string is falsy). -/
def sortKeyFn (e : Event) : String :=
  if e.date = "" then maxDateSentinel else e.date

/-- The comparison used by `existing_data.sort(key=...)`. -/
def storeLe (a b : Event) : Prop := strLe (sortKeyFn a) (sortKeyFn b) = true

instance : DecidableRel storeLe := fun a b =>
  inferInstanceAs (Decidable (strLe (sortKeyFn a) (sortKeyFn b) = true))

/-- The `existing_signatures` construction loop.  `tracker.py` (lines
384-391) first skips existing items with a stale date (`skipStale =
true`); the other four scrapers add every item's signature
(`skipStale = false`). -/
def buildSigs (sigf : Event → Sig) (skipStale : Bool) : List Event → List Sig
  | [] => []
  | e :: rest =>
    if skipStale && isStaleDate e.date then buildSigs sigf skipStale rest
    else sigf e :: buildSigs sigf skipStale rest

/-- The candidate loop of `update_database`: for each new event, skip it
if (`candFilter`) its date is non-empty and below the cutoff, skip it if
its signature is already known, otherwise append it and count it.
`label_scraper.py` omits the date check (`candFilter = false`); the other
four have it.  Returns the final signature set, the accumulated data list
and `added_count`. -/
def dedupLoop (sigf : Event → Sig) (candFilter : Bool) :
    List Event → List Sig → List Event → Nat → List Sig × List Event × Nat
  | [], sigs, acc, n => (sigs, acc, n)
  | c :: cs, sigs, acc, n =>
    if candFilter && isStaleDate c.date then
      dedupLoop sigf candFilter cs sigs acc n
    else if sigf c ∈ sigs then
      dedupLoop sigf candFilter cs sigs acc n
    else
      dedupLoop sigf candFilter cs (sigf c :: sigs) (acc ++ [c]) (n + 1)

/-- Common shape of the five `update_database` routines: build the
signature set from the existing data, run the candidate loop (appending
to the existing list), sort by date with the `'9999-12-31'` sentinel for
empty dates, and keep only entries with `date >= '2024-01-01'`.
Returns the written store and `added_count`. -/
def update_database_core (sigf : Event → Sig) (skipStale candFilter : Bool)
    (existing newEvents : List Event) : List Event × Nat :=
  let sigs0 := buildSigs sigf skipStale existing
  let res := dedupLoop sigf candFilter newEvents sigs0 existing 0
  let sortedData := List.insertionSort storeLe res.2.1
  ((sortedData.filter dateOk), res.2.2)

/-- `tracker.py` line 390/400: `sig = (item.get('company'),
item.get('date'), item.get('title'))` — the full, untruncated title. -/
def sigFull (e : Event) : Sig := (e.company, e.date, e.title)

/-- The other scrapers' signature, e.g. `historical_scraper.py` line 229:
`sig = (item.get('company'), item.get('date'), item.get('title', '')[:50])`. -/
def sig50 (e : Event) : Sig := (e.company, e.date, e.title.take 50)

/-- A value returned by a successful `json.loads(content)`.  Objects are
represented by the event records the scrapers themselves write
(`Json.record`); arbitrary further dict shapes are not needed by the
loader semantics below, which only ever iterates values and calls
`.get` on items. -/
inductive Json where
  | null
  | bool (b : Bool)
  | num (n : Int)
  | str (s : String)
  | arr (items : List Json)
  | record (e : Event)

/-- The keys of a scraper-written record dict, in insertion order
(`label_scraper.py` inserts `details` between `title` and `link`). -/
def recordKeys (e : Event) : List String :=
  ["company", "drug", "type", "date", "title"] ++
    (match e.details with | some _ => ["details"] | none => []) ++
    ["link", "source"]

/-- Python `for item in existing_data`: arrays iterate element-wise,
strings character-wise, dicts key-wise; numbers, booleans and `None`
raise `TypeError` (not caught by the loader's
`except json.JSONDecodeError`). -/
def pyIterate : Json → Except String (List Json)
  | .arr items => .ok items
  | .str s => .ok (s.data.map (fun c => Json.str ⟨[c]⟩))
  | .record e => .ok ((recordKeys e).map Json.str)
  | .null => .error "TypeError"
  | .bool _ => .error "TypeError"
  | .num _ => .error "TypeError"

/-- The merge loops call `item.get(...)` on every iterated item; only
dicts support `.get`, so the first non-dict item raises
`AttributeError` (also uncaught). -/
def asRecords : List Json → Except String (List Event)
  | [] => .ok []
  | .record e :: rest =>
    match asRecords rest with
    | .ok es => .ok (e :: es)
    | .error exc => .error exc
  | _ :: _ => .error "AttributeError"

/-- State of the persistent `data/data.json` file as seen by the
`update_database` loaders: absent; readable but raising
`UnicodeDecodeError` at `f.read()`; whitespace-only (`content.strip()`
falsy); raising `json.JSONDecodeError` inside `json.loads`; or decoding
to a JSON value. -/
inductive StoreFile where
  | absent
  | unreadable
  | blank
  | undecodable
  | decoded (v : Json)

/-- The loading prologue plus the item typing of the merge loops,
shared by every `update_database` (e.g. `tracker.py` lines 374-391):
`existing_data = []` when the file is absent, blank, or fails JSON
decoding (only `json.JSONDecodeError` is caught); a `UnicodeDecodeError`
from `f.read()` propagates; a decoded value is iterated and its items
sent `.get`, raising for non-list values and non-dict items. -/
def loadStore : StoreFile → Except String (List Event)
  | .absent => .ok []
  | .unreadable => .error "UnicodeDecodeError"
  | .blank => .ok []
  | .undecodable => .ok []
  | .decoded v =>
    match pyIterate v with
    | .ok items => asRecords items
    | .error exc => .error exc

namespace Tracker

/-- `tracker.py` `update_database` (lines 372-418): full-title signature,
stale existing entries skipped when building signatures, candidates with
non-empty pre-cutoff dates skipped. -/
def update_database (existing newEvents : List Event) : List Event × Nat :=
  update_database_core sigFull true true existing newEvents

/-- `tracker.py` `update_database` including the file-loading prologue:
either the merge result, or the uncaught exception the loading/typing
stage raises. -/
def update_database_file (file : StoreFile) (newEvents : List Event) :
    Except String (List Event × Nat) :=
  match loadStore file with
  | .ok existing => .ok (update_database existing newEvents)
  | .error exc => .error exc

end Tracker

namespace Historical

/-- `historical_scraper.py` `update_database` (lines 214-258):
50-character-title signature, no stale skip when building signatures,
candidates with non-empty pre-cutoff dates skipped. -/
def update_database (existing newEvents : List Event) : List Event × Nat :=
  update_database_core sig50 false true existing newEvents

/-- `historical_scraper.py` `update_database` with file loading (its
prologue, lines 216-224, is identical to `tracker.py`'s). -/
def update_database_file (file : StoreFile) (newEvents : List Event) :
    Except String (List Event × Nat) :=
  match loadStore file with
  | .ok existing => .ok (update_database existing newEvents)
  | .error exc => .error exc

end Historical

namespace ClinicalTrials

/-- `clinicaltrials_scraper.py` `update_database` (lines 195-234): same
parameters as `historical_scraper.py`. -/
def update_database (existing newEvents : List Event) : List Event × Nat :=
  update_database_core sig50 false true existing newEvents

/-- The `existing_signatures` set of `clinicaltrials_scraper.py` lines
207-210: built from every existing item, with no stale-date filtering. -/
def existing_signatures (existing : List Event) : List Sig :=
  buildSigs sig50 false existing

end ClinicalTrials

namespace SecEdgar

/-- `sec_edgar_scraper.py` `update_database` (lines 261-303): same
parameters as `historical_scraper.py`. -/
def update_database (existing newEvents : List Event) : List Event × Nat :=
  update_database_core sig50 false true existing newEvents

end SecEdgar

namespace LabelScraper

/-- `label_scraper.py` `update_database` (lines 202-238): 50-character
signature, no stale skip, and no date filter on incoming candidates. -/
def update_database (existing newEvents : List Event) : List Event × Nat :=
  update_database_core sig50 false false existing newEvents

end LabelScraper

/-- The `existing_signatures` set of `tracker.py` lines 384-391: built
after skipping existing items whose date is non-empty and pre-cutoff. -/
def Tracker.existing_signatures (existing : List Event) : List Sig :=
  buildSigs sigFull true existing

/-! ### Entity matcher (`tracker.py` lines 193-201 and 290-297)

The repository's inputs are ASCII, so Python's `str.lower()` and
whitespace `str.split()` are modelled by ASCII lowering and splitting on
whitespace runs. -/

/-- Python `needle` being a prefix of `hay` (code-point equality). -/
def leadMatch : List Char → List Char → Bool
  | [], _ => true
  | _ :: _, [] => false
  | a :: as, b :: bs => (a == b) && leadMatch as bs

/-- Python `needle in hay`: substring containment. -/
def subMatch (needle : List Char) : List Char → Bool
  | [] => needle.isEmpty
  | b :: bs => leadMatch needle (b :: bs) || subMatch needle bs

/-- Python `needle in hay` on strings. -/
def strContains (needle hay : String) : Bool := subMatch needle.data hay.data

/-- Python `str.lower()` (ASCII). -/
def lowerStr (s : String) : String := ⟨s.data.map Char.toLower⟩

/-- Accumulator pass of Python `str.split()`: split on whitespace runs,
discarding empty words. -/
def wordsAux : List Char → List Char → List (List Char)
  | [], cur => if cur.isEmpty then [] else [cur.reverse]
  | c :: cs, cur =>
    if c.isWhitespace then
      if cur.isEmpty then wordsAux cs [] else cur.reverse :: wordsAux cs []
    else wordsAux cs (c :: cur)

/-- Python `str.split()` with no arguments. -/
def pySplit (s : String) : List String := (wordsAux s.data []).map (fun l => ⟨l⟩)

/-- `company_words = company.lower().split()` -/
def companyWords (company : String) : List String := pySplit (lowerStr company)

/-- `any(word in content_lower for word in company_words if len(word) > 3)` -/
def tokenHit (company text : String) : Bool :=
  (companyWords company).any
    (fun w => decide (w.length > 3) && strContains w (lowerStr text))

/-- The company-detection loop of `tracker.py` (lines 290-297, and the
same shape at lines 193-201 and `historical_scraper.py` lines 195-210):
iterate the universe in order, return the first company one of whose
long (> 3 chars) lowercased name tokens occurs in the lowercased text,
and stop (`break`). -/
def matchByAnyLongToken : List String → String → Option String
  | [], _ => none
  | company :: rest, text =>
    if tokenHit company text then some company
    else matchByAnyLongToken rest text

/-! ### Date normalizer

Models the date-string handling shared by `tracker.py` (`scan_rss_feeds`
lines 311-345), `sec_edgar_scraper.py` (`extract_pdufa_date` lines
157-182) and `clinicaltrials_scraper.py` (`extract_trial_events` lines
101-109).  The regex *capture* stage (which fragment of free text the
`DATE_PATTERNS` list hands over) is the adapter boundary; the functions
below take the captured date string, exactly as the Python code receives
it in `date_str`. -/

/-- Digit value of an ASCII digit. -/
def digitVal (c : Char) : Nat := c.toNat - 48

/-- Digits to number, most significant first. -/
def natOfDigits : List Char → Nat → Nat
  | [], acc => acc
  | c :: cs, acc => natOfDigits cs (acc * 10 + digitVal c)

/-- Numeric value of an all-digit token. -/
def tokenNat (s : String) : Nat := natOfDigits s.data 0

/-- Token consists only of ASCII digits. -/
def allDigits (s : String) : Bool := s.data.all Char.isDigit

/-- `strptime` `%Y`: exactly four digits, and `datetime` requires
`year >= 1` (`MINYEAR`). -/
def yearTok (s : String) : Option Nat :=
  if s.length = 4 && allDigits s && decide (1 ≤ tokenNat s) then
    some (tokenNat s)
  else none

/-- `strptime` `%d` (also `%m`): one or two digits; range checked later. -/
def dayTok (s : String) : Option Nat :=
  if (s.length = 1 || s.length = 2) && allDigits s then some (tokenNat s)
  else none

/-- `calendar.monthrange(year, month)[1]`, and the day-of-month range
check done by the `datetime` constructor inside `strptime`. -/
def isLeapYear (y : Nat) : Bool :=
  (y % 4 == 0) && (y % 100 != 0 || y % 400 == 0)

/-- Last day of a month (`calendar.monthrange(year, month)[1]`). -/
def daysInMonth (y m : Nat) : Nat :=
  if m = 2 then (if isLeapYear y then 29 else 28)
  else if m = 4 ∨ m = 6 ∨ m = 9 ∨ m = 11 then 30
  else 31

/-- Lowercased full month names (`strptime` `%B` matches month names
case-insensitively). -/
def monthNames : List String :=
  ["january", "february", "march", "april", "may", "june", "july",
   "august", "september", "october", "november", "december"]

/-- Index scan resolving a month-name token. -/
def monthIdx : List String → String → Nat → Option Nat
  | [], _, _ => none
  | m :: ms, s, i => if s = m then some i else monthIdx ms s (i + 1)

/-- `%B`: month number (1-12) of a month-name token. -/
def monthNum (s : String) : Option Nat :=
  match monthIdx monthNames (lowerStr s) 1 with
  | some i => some i
  | none => none

/-- `date_str.replace(',', '')`. -/
def stripCommas (s : String) : String := ⟨s.data.filter (fun c => !(c == ','))⟩

/-- Zero-padded two-digit field (`{:02d}`, `strftime` `%m`/`%d`). -/
def pad2 (n : Nat) : String := if n < 10 then "0" ++ toString n else toString n

/-- `dt.strftime('%Y-%m-%d')` / `f"{year}-{month:02d}-{day:02d}"` (every
repository input carries a four-digit year, printed unpadded). -/
def dateFmt (y m d : Nat) : String :=
  toString y ++ "-" ++ pad2 m ++ "-" ++ pad2 d

/-- Splitting on a separator character, keeping empty segments. -/
def splitOnCharAux (ch : Char) : List Char → List Char → List (List Char)
  | [], cur => [cur.reverse]
  | c :: cs, cur =>
    if c == ch then cur.reverse :: splitOnCharAux ch cs []
    else splitOnCharAux ch cs (c :: cur)

/-- Splitting a string on a separator character. -/
def splitOnChar (ch : Char) (s : String) : List String :=
  (splitOnCharAux ch s.data []).map (fun l => ⟨l⟩)

/-- `strptime(s, '%B %d, %Y')`: the callers strip every comma from the
input first (`date_str.replace(',', '')`), so the format's literal comma
can never match and this format always fails. -/
def fmtMonthDayCommaYear (_ : String) : Option (Nat × Nat × Nat) := none

/-- `strptime(s, '%B, %Y')`: fails for the same reason. -/
def fmtMonthCommaYear (_ : String) : Option (Nat × Nat × Nat) := none

/-- `strptime(s, '%B %d %Y')` on the comma-stripped string. -/
def fmtMonthDayYear (s : String) : Option (Nat × Nat × Nat) :=
  match pySplit s with
  | [b, d, y] =>
    match monthNum b, dayTok d, yearTok y with
    | some m, some dd, some yy =>
      if 1 ≤ dd ∧ dd ≤ daysInMonth yy m then some (yy, m, dd) else none
    | _, _, _ => none
  | _ => none

/-- `strptime(s, '%B %Y')`: month name and year; `datetime` defaults the
day to 1. -/
def fmtMonthYear (s : String) : Option (Nat × Nat × Nat) :=
  match pySplit s with
  | [b, y] =>
    match monthNum b, yearTok y with
    | some m, some yy => some (yy, m, 1)
    | _, _ => none
  | _ => none

/-- `strptime(s, '%Y-%m-%d')` (only in `sec_edgar_scraper.py`'s format
list). -/
def fmtIsoDate (s : String) : Option (Nat × Nat × Nat) :=
  match pySplit s with
  | [t] =>
    match splitOnChar '-' t with
    | [ys, ms, ds] =>
      match yearTok ys, dayTok ms, dayTok ds with
      | some y, some m, some d =>
        if 1 ≤ m ∧ m ≤ 12 ∧ 1 ≤ d ∧ d ≤ daysInMonth y m then some (y, m, d)
        else none
      | _, _, _ => none
    | _ => none
  | _ => none

/-- The format loop of `tracker.py` lines 320-326:
`['%B %d, %Y', '%B %d %Y', '%B, %Y', '%B %Y']`, first success wins. -/
def rssFormats (s : String) : Option (Nat × Nat × Nat) :=
  match fmtMonthDayCommaYear s with
  | some r => some r
  | none =>
    match fmtMonthDayYear s with
    | some r => some r
    | none =>
      match fmtMonthCommaYear s with
      | some r => some r
      | none => fmtMonthYear s

/-- The format loop of `sec_edgar_scraper.py` line 165:
`['%B %d, %Y', '%B %d %Y', '%B, %Y', '%B %Y', '%Y-%m-%d']`. -/
def secFormats (s : String) : Option (Nat × Nat × Nat) :=
  match rssFormats s with
  | some r => some r
  | none => fmtIsoDate s

/-- `\s+`: at least one whitespace character, then the rest (greedy;
whitespace and digits are disjoint, so greediness is exact). -/
def wsPlus : List Char → Option (List Char)
  | [] => none
  | c :: cs =>
    if c.isWhitespace then some (cs.dropWhile Char.isWhitespace) else none

/-- `\d{4}` at the head of the remainder; anything may follow
(`re.match` only anchors at the start). -/
def fourDigits : List Char → Option Nat
  | a :: b :: c :: d :: _ =>
    if a.isDigit && b.isDigit && c.isDigit && d.isDigit then
      some (natOfDigits [a, b, c, d] 0)
    else none
  | _ => none

/-- `re.match(r'Q([1-4])\s+(\d{4})', date_str)` (prefix semantics):
quarter number and year. -/
def quarterMatch (s : String) : Option (Nat × Nat) :=
  match s.data with
  | 'Q' :: q :: rest =>
    if q.isDigit && decide (1 ≤ digitVal q) && decide (digitVal q ≤ 4) then
      match wsPlus rest with
      | some rest2 =>
        match fourDigits rest2 with
        | some y => some (digitVal q, y)
        | none => none
      | none => none
    else none
  | _ => none

/-- Shape test for a canonical `YYYY-MM-DD` string. -/
def isCanonicalDate (s : String) : Bool :=
  match s.data with
  | [y1, y2, y3, y4, s1, m1, m2, s2, d1, d2] =>
    y1.isDigit && y2.isDigit && y3.isDigit && y4.isDigit && (s1 == '-') &&
      m1.isDigit && m2.isDigit && (s2 == '-') && d1.isDigit && d2.isDigit
  | _ => false

namespace SecEdgar

/-- `sec_edgar_scraper.py` lines 162-180, the body run on the fragment
captured by the first matching `DATE_PATTERNS` entry: try the format
list on the comma-stripped capture, then the quarter rule
(`f"{year}-{month:02d}-28"`, line 178), and otherwise
`return date_str` — the raw capture — at line 180. -/
def parse_capture (dateStr : String) : Option String :=
  match secFormats (stripCommas dateStr) with
  | some (y, m, d) => some (dateFmt y m d)
  | none =>
    match quarterMatch dateStr with
    | some (q, y) => some (toString y ++ "-" ++ pad2 (q * 3) ++ "-28")
    | none => some dateStr

/-- `extract_pdufa_date` (lines 157-182) as a function of the first
captured fragment: `None` when no pattern matched (line 182). -/
def extract_pdufa_date (capture : Option String) : Option String :=
  match capture with
  | some ds => parse_capture ds
  | none => none

end SecEdgar

namespace Tracker

/-- `tracker.py` lines 317-342, the body run on one captured `date_str`:
the four-format list on the comma-stripped capture, then the quarter
rule with `calendar.monthrange` — the *true* last day of the quarter's
closing month (line 336: `day = monthrange(year, month)[1]`) — and
otherwise no date (`extracted_date` stays `None`). -/
def rss_parse_capture (dateStr : String) : Option String :=
  match rssFormats (stripCommas dateStr) with
  | some (y, m, d) => some (dateFmt y m d)
  | none =>
    match quarterMatch dateStr with
    | some (q, y) => some (dateFmt y (q * 3) (daysInMonth y (q * 3)))
    | none => none

end Tracker

namespace ClinicalTrials

/-- `strptime(completion_date, '%Y-%m')`. -/
def parseYM (s : String) : Option (Nat × Nat) :=
  match splitOnChar '-' s with
  | [ys, ms] =>
    match yearTok ys, dayTok ms with
    | some y, some m => if 1 ≤ m ∧ m ≤ 12 then some (y, m) else none
    | _, _ => none
  | _ => none

/-- `clinicaltrials_scraper.py` lines 101-109: a 7-character completion
date (`YYYY-MM`) is reformatted with `dt.strftime('%Y-%m-28')`; a failed
parse drops the study (`except: continue`); other lengths pass through
unchanged. -/
def normalize_completion_date (s : String) : Option String :=
  if s.length = 7 then
    match parseYM s with
    | some (y, m) => some (toString y ++ "-" ++ pad2 m ++ "-28")
    | none => none
  else some s

end ClinicalTrials

/-! ### Concrete example records used in counterexamples and witnesses -/

/-- A stored event whose title is 54 characters long (only the first 50
characters enter the 50-character dedup signature). -/
def exA : Event :=
  { company := "Gilead", drug := "Biktarvy", type := "Label Update",
    date := "2024-05-01",
    title := "Biktarvy label update: safety information May 24 v one",
    link := "https://example.com/one", source := "OpenFDA" }

/-- A candidate equal to `exA` in company, date and the first 50 title
characters, but differing in the title tail, the link and the source. -/
def exB : Event :=
  { company := "Gilead", drug := "Biktarvy", type := "Label Update",
    date := "2024-05-01",
    title := "Biktarvy label update: safety information May 24 v two",
    link := "https://example.com/two", source := "SEC EDGAR 8-K" }

/-- A candidate whose date could not be determined (empty string). -/
def exEmpty : Event :=
  { company := "Vanda", drug := "Check Source", type := "Press Release",
    date := "", title := "Vanda announces FDA submission",
    link := "https://example.com/vanda", source := "PRNewsWire" }

/-- A stored event dated before the `'2024-01-01'` cutoff. -/
def exStale : Event :=
  { company := "Amgen", drug := "Check Source", type := "Press Release",
    date := "2023-06-01", title := "Amgen older announcement",
    link := "https://example.com/amgen", source := "BusinessWire" }

/-- An event dated after the cutoff. -/
def exGood : Event :=
  { company := "Moderna", drug := "Spikevax", type := "FDA Approval",
    date := "2024-07-15", title := "Spikevax - Application Approved",
    link := "https://example.com/moderna", source := "openFDA API" }

/-! ## Infrastructure lemmas -/

/-- Strict lexicographic comparison is asymmetric. -/
theorem strLtList_asymm : ∀ a b : List Char,
    strLtList a b = true → strLtList b a = true → False := by
  intro a
  induction a with
  | nil => intro b h1 h2; cases b <;> simp [strLtList] at h1 h2
  | cons x xs ih =>
    intro b h1 h2
    cases b with
    | nil => simp [strLtList] at h1
    | cons y ys =>
      simp only [strLtList] at h1 h2
      by_cases hxy : x.toNat < y.toNat
      · have hyx : ¬ y.toNat < x.toNat := Nat.lt_asymm hxy
        simp [hxy, hyx] at h2
      · by_cases hyx : y.toNat < x.toNat
        · simp [hxy, hyx] at h1
        · simp only [hxy, hyx, if_neg, ite_false] at h1 h2
          exact ih ys h1 h2

/-- If `b <= c` (that is, not `c < b`) and `c < a` then `b < a`. -/
theorem strLtList_le_lt_trans : ∀ c b a : List Char,
    strLtList c b = false → strLtList c a = true → strLtList b a = true := by
  intro c
  induction c with
  | nil =>
    intro b a h1 h2
    cases b with
    | nil => exact h2
    | cons y ys => simp [strLtList] at h1
  | cons x xs ih =>
    intro b a h1 h2
    cases a with
    | nil => cases b <;> simp [strLtList] at h2
    | cons z zs =>
      cases b with
      | nil => simp [strLtList]
      | cons y ys =>
        simp only [strLtList] at h1 h2 ⊢
        by_cases hxy : x.toNat < y.toNat
        · simp [hxy] at h1
        · by_cases hxz : x.toNat < z.toNat
          · by_cases hyz : y.toNat < z.toNat
            · simp [hyz]
            · exact absurd (Nat.lt_of_lt_of_le hxz (Nat.le_of_not_lt hyz))
                (by omega)
          · by_cases hzx : z.toNat < x.toNat
            · simp [hxz, hzx] at h2
            · simp only [hxz, hzx, if_neg, ite_false] at h2
              by_cases hyx : y.toNat < x.toNat
              · have hyz : y.toNat < z.toNat := by omega
                simp [hyz]
              · have hyz : ¬ y.toNat < z.toNat := by omega
                have hzy : ¬ z.toNat < y.toNat := by omega
                simp only [hxy, hyx, if_neg, ite_false] at h1
                simp only [hyz, hzy, if_neg, ite_false]
                exact ih ys zs h1 h2

instance : IsTotal Event storeLe :=
  ⟨fun a b => by
    by_cases h : strLt (sortKeyFn b) (sortKeyFn a) = true
    · right
      unfold storeLe strLe
      by_cases h2 : strLt (sortKeyFn a) (sortKeyFn b) = true
      · exact absurd (strLtList_asymm _ _ h h2) (fun x => x)
      · rw [Bool.not_eq_true] at h2; simp [h2]
    · left
      unfold storeLe strLe
      rw [Bool.not_eq_true] at h; simp [h]⟩

instance : IsTrans Event storeLe :=
  ⟨fun a b c h1 h2 => by
    unfold storeLe strLe strLt at h1 h2 ⊢
    simp only [Bool.not_eq_true', Bool.not_eq_true] at h1 h2 ⊢
    by_cases h3 : strLtList (sortKeyFn c).data (sortKeyFn a).data = true
    · have h4 := strLtList_le_lt_trans _ _ _ h2 h3
      rw [h4] at h1; cases h1
    · rw [Bool.not_eq_true] at h3; exact h3⟩

/-- `orderedInsert` puts `a` in front when `a` is below the whole list. -/
theorem orderedInsert_eq_cons (a : Event) (l : List Event)
    (h : ∀ c ∈ l, storeLe a c) :
    List.orderedInsert storeLe a l = a :: l := by
  cases l with
  | nil => rfl
  | cons b bs =>
    unfold List.orderedInsert
    rw [if_pos (h b (List.mem_cons_self b bs))]

/-- Filtering commutes with inserting into a sorted list. -/
theorem filter_orderedInsert (p : Event → Bool) (a : Event) :
    ∀ l : List Event, l.Sorted storeLe →
    (List.orderedInsert storeLe a l).filter p =
      if p a then List.orderedInsert storeLe a (l.filter p) else l.filter p := by
  intro l
  induction l with
  | nil =>
    intro _
    by_cases hpa : p a = true <;>
      simp [List.orderedInsert, List.filter, hpa]
  | cons b bs ih =>
    intro hs
    rw [List.sorted_cons] at hs
    by_cases hab : storeLe a b
    · rw [List.orderedInsert, if_pos hab]
      by_cases hpa : p a = true
      · rw [List.filter_cons_of_pos hpa, if_pos hpa]
        rw [orderedInsert_eq_cons]
        intro c hc
        rw [List.mem_filter] at hc
        rcases List.mem_cons.mp hc.1 with h | h
        · exact h ▸ hab
        · exact IsTrans.trans a b c hab (hs.1 c h)
      · rw [List.filter_cons_of_neg (by simp [hpa]), if_neg hpa]
    · rw [List.orderedInsert, if_neg hab]
      by_cases hpb : p b = true
      · rw [List.filter_cons_of_pos hpb, List.filter_cons_of_pos hpb,
          ih hs.2]
        by_cases hpa : p a = true
        · rw [if_pos hpa, if_pos hpa, List.orderedInsert, if_neg hab]
        · rw [if_neg hpa, if_neg hpa]
      · rw [List.filter_cons_of_neg (by simp [hpb]),
          List.filter_cons_of_neg (by simp [hpb]), ih hs.2]

/-- Filtering commutes with the stable sort. -/
theorem filter_insertionSort (p : Event → Bool) (l : List Event) :
    (List.insertionSort storeLe l).filter p =
      List.insertionSort storeLe (l.filter p) := by
  induction l with
  | nil => rfl
  | cons a l ih =>
    show (List.orderedInsert storeLe a (List.insertionSort storeLe l)).filter p = _
    rw [filter_orderedInsert p a _ (List.sorted_insertionSort storeLe _)]
    rw [List.filter_cons]
    by_cases hpa : p a = true
    · rw [if_pos hpa, if_pos hpa, ih]
      rfl
    · rw [if_neg hpa, if_neg (by simp [hpa]), ih]

/-- If every candidate is stale-skipped or already known, the loop is a
no-op. -/
theorem dedupLoop_skip_all (sigf : Event → Sig) (cf : Bool) :
    ∀ (cs : List Event) (sigs : List Sig) (acc : List Event) (n : Nat),
    (∀ c ∈ cs, (cf && isStaleDate c.date) = true ∨ sigf c ∈ sigs) →
    dedupLoop sigf cf cs sigs acc n = (sigs, acc, n) := by
  intro cs
  induction cs with
  | nil => intro sigs acc n _; rfl
  | cons c cs ih =>
    intro sigs acc n h
    have hc := h c (List.mem_cons_self c cs)
    have hrest : ∀ x ∈ cs, (cf && isStaleDate x.date) = true ∨ sigf x ∈ sigs :=
      fun x hx => h x (List.mem_cons_of_mem c hx)
    by_cases h1 : (cf && isStaleDate c.date) = true
    · simp only [dedupLoop, h1, if_true]
      exact ih sigs acc n hrest
    · have h2 : sigf c ∈ sigs := hc.resolve_left h1
      simp only [dedupLoop]
      rw [if_neg (by simp [h1]), if_pos h2]
      exact ih sigs acc n hrest

/-- The initial signatures stay in the final signature set. -/
theorem dedupLoop_sigs_mono (sigf : Event → Sig) (cf : Bool) :
    ∀ (cs : List Event) (sigs : List Sig) (acc : List Event) (n : Nat),
    ∀ s ∈ sigs, s ∈ (dedupLoop sigf cf cs sigs acc n).1 := by
  intro cs
  induction cs with
  | nil => intro sigs acc n s hs; exact hs
  | cons c cs ih =>
    intro sigs acc n s hs
    simp only [dedupLoop]
    by_cases h1 : (cf && isStaleDate c.date) = true
    · rw [if_pos h1]; exact ih sigs acc n s hs
    · rw [if_neg (by simp [h1])]
      by_cases h2 : sigf c ∈ sigs
      · rw [if_pos h2]; exact ih sigs acc n s hs
      · rw [if_neg h2]
        exact ih _ _ _ s (List.mem_cons_of_mem _ hs)

/-- Every processed candidate is either stale-skipped or ends with its
signature in the final signature set. -/
theorem dedupLoop_covers (sigf : Event → Sig) (cf : Bool) :
    ∀ (cs : List Event) (sigs : List Sig) (acc : List Event) (n : Nat),
    ∀ c ∈ cs, (cf && isStaleDate c.date) = true ∨
      sigf c ∈ (dedupLoop sigf cf cs sigs acc n).1 := by
  intro cs
  induction cs with
  | nil => intro sigs acc n c hc; cases hc
  | cons c cs ih =>
    intro sigs acc n x hx
    simp only [dedupLoop]
    rcases List.mem_cons.mp hx with rfl | hx2
    · by_cases h1 : (cf && isStaleDate x.date) = true
      · exact Or.inl h1
      · right
        rw [if_neg (by simp [h1])]
        by_cases h2 : sigf x ∈ sigs
        · rw [if_pos h2]; exact dedupLoop_sigs_mono sigf cf cs sigs acc n _ h2
        · rw [if_neg h2]
          exact dedupLoop_sigs_mono sigf cf cs _ _ _ _
            (List.mem_cons_self _ _)
    · by_cases h1 : (cf && isStaleDate c.date) = true
      · rw [if_pos h1]; exact ih sigs acc n x hx2
      · rw [if_neg (by simp [h1])]
        by_cases h2 : sigf c ∈ sigs
        · rw [if_pos h2]; exact ih sigs acc n x hx2
        · rw [if_neg h2]; exact ih _ _ _ x hx2

/-- Accumulator decomposition: the loop appends a sublist of fresh,
not-previously-known candidates. -/
theorem dedupLoop_acc (sigf : Event → Sig) (cf : Bool) :
    ∀ (cs : List Event) (sigs : List Sig) (acc : List Event) (n : Nat),
    ∃ extra, (dedupLoop sigf cf cs sigs acc n).2.1 = acc ++ extra ∧
      ∀ a ∈ extra, a ∈ cs ∧ sigf a ∉ sigs ∧
        (cf = true → isStaleDate a.date = false) := by
  intro cs
  induction cs with
  | nil =>
    intro sigs acc n
    exact ⟨[], by simp [dedupLoop], by intro a ha; cases ha⟩
  | cons c cs ih =>
    intro sigs acc n
    simp only [dedupLoop]
    by_cases h1 : (cf && isStaleDate c.date) = true
    · rw [if_pos h1]
      obtain ⟨extra, he, hp⟩ := ih sigs acc n
      exact ⟨extra, he, fun a ha =>
        ⟨List.mem_cons_of_mem c (hp a ha).1, (hp a ha).2.1, (hp a ha).2.2⟩⟩
    · rw [if_neg (by simp [h1])]
      by_cases h2 : sigf c ∈ sigs
      · rw [if_pos h2]
        obtain ⟨extra, he, hp⟩ := ih sigs acc n
        exact ⟨extra, he, fun a ha =>
          ⟨List.mem_cons_of_mem c (hp a ha).1, (hp a ha).2.1, (hp a ha).2.2⟩⟩
      · rw [if_neg h2]
        obtain ⟨extra, he, hp⟩ := ih (sigf c :: sigs) (acc ++ [c]) (n + 1)
        refine ⟨c :: extra, by simpa using he, ?_⟩
        intro a ha
        rcases List.mem_cons.mp ha with rfl | ha2
        · refine ⟨List.mem_cons_self a cs, h2, ?_⟩
          intro hcf
          rcases Bool.eq_false_or_eq_true (isStaleDate a.date) with h | h
          · exact absurd (by rw [hcf, h]; rfl) h1
          · exact h
        · have := hp a ha2
          exact ⟨List.mem_cons_of_mem c this.1,
            fun hmem => this.2.1 (List.mem_cons_of_mem _ hmem), this.2.2⟩

/-- Realization invariant: every final signature whose date component is
at or above the cutoff belongs to some date-acceptable event of the
final accumulator. -/
theorem dedupLoop_realize (sigf : Event → Sig)
    (hs : ∀ e, (sigf e).2.1 = e.date) (cf : Bool) :
    ∀ (cs : List Event) (sigs : List Sig) (acc : List Event) (n : Nat),
    (∀ s ∈ sigs, strLe cutoff s.2.1 = true →
      ∃ e, e ∈ acc ∧ sigf e = s ∧ dateOk e = true) →
    ∀ s ∈ (dedupLoop sigf cf cs sigs acc n).1, strLe cutoff s.2.1 = true →
      ∃ e, e ∈ (dedupLoop sigf cf cs sigs acc n).2.1 ∧ sigf e = s ∧
        dateOk e = true := by
  intro cs
  induction cs with
  | nil => intro sigs acc n hbase s hmem hgood; exact hbase s hmem hgood
  | cons c cs ih =>
    intro sigs acc n hbase
    simp only [dedupLoop]
    by_cases h1 : (cf && isStaleDate c.date) = true
    · rw [if_pos h1]; exact ih sigs acc n hbase
    · rw [if_neg (by simp [h1])]
      by_cases h2 : sigf c ∈ sigs
      · rw [if_pos h2]; exact ih sigs acc n hbase
      · rw [if_neg h2]
        apply ih (sigf c :: sigs) (acc ++ [c]) (n + 1)
        intro s hmem hgood
        rcases List.mem_cons.mp hmem with rfl | hmem2
        · refine ⟨c, by simp, rfl, ?_⟩
          have : strLe cutoff c.date = true := by rw [← hs c]; exact hgood
          exact this
        · obtain ⟨e, he, hesig, heok⟩ := hbase s hmem2 hgood
          exact ⟨e, List.mem_append_left _ he, hesig, heok⟩

/-- With the candidate date filter on, the loop result depends on the
initial signature set only through its non-stale members. -/
theorem dedupLoop_congr (sigf : Event → Sig)
    (hs : ∀ e, (sigf e).2.1 = e.date) :
    ∀ (cs : List Event) (sigs1 sigs2 : List Sig) (acc : List Event) (n : Nat),
    (∀ s : Sig, isStaleDate s.2.1 = false → (s ∈ sigs1 ↔ s ∈ sigs2)) →
    (dedupLoop sigf true cs sigs1 acc n).2 =
      (dedupLoop sigf true cs sigs2 acc n).2 := by
  intro cs
  induction cs with
  | nil => intro sigs1 sigs2 acc n _; rfl
  | cons c cs ih =>
    intro sigs1 sigs2 acc n h
    simp only [dedupLoop, Bool.true_and]
    by_cases h1 : isStaleDate c.date = true
    · rw [if_pos h1, if_pos h1]; exact ih sigs1 sigs2 acc n h
    · rw [if_neg h1, if_neg h1]
      have hns : isStaleDate (sigf c).2.1 = false := by
        rw [hs c]; exact Bool.not_eq_true _ ▸ (Bool.eq_false_iff.mpr h1)
      have hiff := h (sigf c) hns
      by_cases h2 : sigf c ∈ sigs1
      · rw [if_pos h2, if_pos (hiff.mp h2)]
        exact ih sigs1 sigs2 acc n h
      · rw [if_neg h2, if_neg (fun hx => h2 (hiff.mpr hx))]
        apply ih
        intro s hnst
        constructor
        · intro hmem
          rcases List.mem_cons.mp hmem with rfl | hm
          · exact List.mem_cons_self _ _
          · exact List.mem_cons_of_mem _ ((h s hnst).mp hm)
        · intro hmem
          rcases List.mem_cons.mp hmem with rfl | hm
          · exact List.mem_cons_self _ _
          · exact List.mem_cons_of_mem _ ((h s hnst).mpr hm)

/-- Membership introduction for `buildSigs`. -/
theorem mem_buildSigs (sigf : Event → Sig) (b : Bool) :
    ∀ (l : List Event) (e : Event), e ∈ l →
    (b = true → isStaleDate e.date = false) → sigf e ∈ buildSigs sigf b l := by
  intro l
  induction l with
  | nil => intro e he; cases he
  | cons x xs ih =>
    intro e he hns
    rcases List.mem_cons.mp he with rfl | he2
    · simp only [buildSigs]
      by_cases hb : (b && isStaleDate e.date) = true
      · rcases Bool.and_eq_true_iff.mp hb with ⟨hb1, hb2⟩
        rw [hns hb1] at hb2; cases hb2
      · rw [if_neg (by simp [hb])]
        exact List.mem_cons_self _ _
    · simp only [buildSigs]
      by_cases hb : (b && isStaleDate x.date) = true
      · rw [if_pos hb]; exact ih e he2 hns
      · rw [if_neg (by simp [hb])]
        exact List.mem_cons_of_mem _ (ih e he2 hns)

/-- Membership elimination for `buildSigs`. -/
theorem buildSigs_mem_elim (sigf : Event → Sig) (b : Bool) :
    ∀ (l : List Event) (s : Sig), s ∈ buildSigs sigf b l →
    ∃ e, e ∈ l ∧ sigf e = s ∧ (b = true → isStaleDate e.date = false) := by
  intro l
  induction l with
  | nil => intro s hs; cases hs
  | cons x xs ih =>
    intro s hs
    simp only [buildSigs] at hs
    by_cases hb : (b && isStaleDate x.date) = true
    · rw [if_pos hb] at hs
      obtain ⟨e, he, hsig, hns⟩ := ih s hs
      exact ⟨e, List.mem_cons_of_mem _ he, hsig, hns⟩
    · rw [if_neg (by simp [hb])] at hs
      rcases List.mem_cons.mp hs with rfl | hs2
      · refine ⟨x, List.mem_cons_self _ _, rfl, fun hbt => ?_⟩
        rcases Bool.eq_false_or_eq_true (isStaleDate x.date) with h | h
        · exact absurd (by rw [hbt, h]; rfl) hb
        · exact h
      · obtain ⟨e, he, hsig, hns⟩ := ih s hs2
        exact ⟨e, List.mem_cons_of_mem _ he, hsig, hns⟩

/-- With `skipStale = false`, `buildSigs` is just `map`. -/
theorem buildSigs_false (sigf : Event → Sig) :
    ∀ l : List Event, buildSigs sigf false l = l.map sigf := by
  intro l
  induction l with
  | nil => rfl
  | cons x xs ih => simp [buildSigs, ih]

/-- A non-stale non-empty date passes the write filter. -/
theorem dateOk_of_not_stale {d : String} (hne : d ≠ "")
    (hst : isStaleDate d = false) : strLe cutoff d = true := by
  unfold isStaleDate at hst
  unfold strLe
  rcases Bool.and_eq_false_iff.mp hst with h | h
  · simp [hne] at h
  · rw [h]; rfl

/-- A stale date fails the write filter. -/
theorem not_dateOk_of_stale {d : String} (hst : isStaleDate d = true) :
    strLe cutoff d = false := by
  unfold isStaleDate at hst
  rcases Bool.and_eq_true_iff.mp hst with ⟨_, h2⟩
  unfold strLe
  rw [h2]; rfl

/-- An empty date fails the write filter. -/
theorem not_dateOk_of_empty {d : String} (hne : d = "") :
    strLe cutoff d = false := by
  subst hne; decide

/-- With `skipStale = true`, `buildSigs` maps over the stale-discarded
list. -/
theorem buildSigs_true (sigf : Event → Sig) :
    ∀ l : List Event, buildSigs sigf true l =
      (l.filter (fun e => !(isStaleDate e.date))).map sigf := by
  intro l
  induction l with
  | nil => rfl
  | cons x xs ih =>
    simp only [buildSigs, Bool.true_and, List.filter_cons]
    by_cases h : isStaleDate x.date = true
    · rw [if_pos h, if_neg (by simp [h]), ih]
    · rw [if_neg h, if_pos (by simp [Bool.not_eq_true _ ▸ h]), List.map_cons, ih]

/-- An event passing the write filter is not stale. -/
theorem stale_false_of_dateOk {e : Event} (h : dateOk e = true) :
    isStaleDate e.date = false := by
  unfold dateOk strLe at h
  rw [Bool.not_eq_true'] at h
  unfold isStaleDate
  rw [h]; simp

/-- An event passing the write filter has a non-empty date. -/
theorem date_ne_empty_of_dateOk {e : Event} (h : dateOk e = true) :
    e.date ≠ "" := by
  intro hemp
  unfold dateOk at h
  rw [hemp] at h
  exact absurd h (by decide)

/-- Unfolding `update_database_core`. -/
theorem update_core_eq (sigf : Event → Sig) (ss cf : Bool)
    (existing newEvents : List Event) :
    update_database_core sigf ss cf existing newEvents =
      (((dedupLoop sigf cf newEvents (buildSigs sigf ss existing)
          existing 0).2.1.insertionSort storeLe).filter dateOk,
        (dedupLoop sigf cf newEvents (buildSigs sigf ss existing)
          existing 0).2.2) := rfl

/-- The written store only holds events passing the date filter. -/
theorem store_all_dateOk (sigf : Event → Sig) (ss cf : Bool)
    (existing newEvents : List Event) :
    ∀ e ∈ (update_database_core sigf ss cf existing newEvents).1,
      dateOk e = true := by
  intro e he
  rw [update_core_eq] at he
  exact (List.mem_filter.mp he).2

/-- The written store is sorted by the Python sort key. -/
theorem store_sorted (sigf : Event → Sig) (ss cf : Bool)
    (existing newEvents : List Event) :
    (update_database_core sigf ss cf existing newEvents).1.Sorted storeLe := by
  rw [update_core_eq]
  exact (List.sorted_insertionSort storeLe _).sublist (List.filter_sublist _)

/-- Store component of `update_database_core`. -/
theorem update_core_fst (sigf : Event → Sig) (ss cf : Bool)
    (existing newEvents : List Event) :
    (update_database_core sigf ss cf existing newEvents).1 =
      ((dedupLoop sigf cf newEvents (buildSigs sigf ss existing)
        existing 0).2.1.insertionSort storeLe).filter dateOk := rfl

/-- Count component of `update_database_core`. -/
theorem update_core_snd (sigf : Event → Sig) (ss cf : Bool)
    (existing newEvents : List Event) :
    (update_database_core sigf ss cf existing newEvents).2 =
      (dedupLoop sigf cf newEvents (buildSigs sigf ss existing)
        existing 0).2.2 := rfl

/-- After a merge with the candidate date filter on, every candidate
with an acceptable date has its signature among the written store's
signatures (its accepted representative survived the write filter). -/
theorem merge_key_covered (sigf : Event → Sig)
    (hs : ∀ e, (sigf e).2.1 = e.date) (ss : Bool) (S C : List Event) :
    ∀ c ∈ C, dateOk c = true →
      sigf c ∈ buildSigs sigf ss (update_database_core sigf ss true S C).1 := by
  intro c hc hok
  have hnst : isStaleDate c.date = false := stale_false_of_dateOk hok
  have hbase : ∀ s ∈ buildSigs sigf ss S, strLe cutoff s.2.1 = true →
      ∃ e, e ∈ S ∧ sigf e = s ∧ dateOk e = true := by
    intro s hmem hgood
    obtain ⟨e, he, hesig, _⟩ := buildSigs_mem_elim sigf ss S s hmem
    refine ⟨e, he, hesig, ?_⟩
    unfold dateOk
    rw [← hs e, hesig]
    exact hgood
  rcases dedupLoop_covers sigf true C (buildSigs sigf ss S) S 0 c hc with h | h
  · rw [Bool.true_and, hnst] at h
    cases h
  · have hgood : strLe cutoff (sigf c).2.1 = true := by
      rw [hs c]; exact hok
    obtain ⟨e, he, hesig, heok⟩ :=
      dedupLoop_realize sigf hs true C (buildSigs sigf ss S) S 0 hbase
        (sigf c) h hgood
    have hest : e ∈ (update_database_core sigf ss true S C).1 := by
      rw [update_core_fst]
      exact List.mem_filter.mpr
        ⟨(List.perm_insertionSort storeLe _).mem_iff.mpr he, heok⟩
    exact hesig ▸ mem_buildSigs sigf ss _ e hest
      (fun _ => stale_false_of_dateOk heok)

/-- A decoded array of scraper-written records types successfully and
yields exactly those records. -/
theorem asRecords_map : ∀ es : List Event,
    asRecords (es.map Json.record) = .ok es := by
  intro es
  induction es with
  | nil => rfl
  | cons e rest ih =>
    show asRecords (Json.record e :: rest.map Json.record) = _
    simp only [asRecords, ih]

/-! ## Claims -/

set_option maxRecDepth 1000000

/-- C1, counterexample: in `tracker.py`'s `update_database` the dedup
signature uses the *full* title, not its first 50 characters.  `exA` and
`exB` agree on company, date and the first 50 title characters, yet
merging `[exB]` into a store holding `exA` adds a second event for that
50-character signature and reports `added_count = 1`, contradicting the
claim's "exactly one Event for that signature" and "addedCount = 0". -/
theorem c1_counterexample :
    sig50 exA = sig50 exB ∧
    (Tracker.update_database [exA] [exB]).2 = 1 ∧
    (Tracker.update_database [exA] [exB]).1.countP
      (fun e => decide (sig50 e = sig50 exA)) = 2 := by decide

/-- C1, amended: in the scrapers that truncate
(`historical_scraper.py`, and identically `clinicaltrials_scraper.py`,
`sec_edgar_scraper.py`, `label_scraper.py`) the triple
(company, date, first-50-characters-of-title) is the dedup key: when
every candidate's 50-character signature already occurs in the store,
the merge adds nothing (`added_count = 0`), returns exactly the store
that merging an empty batch would return (the pre-existing entries are
retained), and the number of events per signature equals that of the
date-acceptable existing entries — in particular one when the store held
exactly one.  `tracker.py`'s `update_database` instead keys on the full
title (see the counterexample). -/
theorem c1_amended (S C : List Event)
    (hcov : ∀ c ∈ C, ∃ e ∈ S, sig50 e = sig50 c) :
    ((Historical.update_database S C).2 = 0 ∧
      (Historical.update_database S C).1 =
        (Historical.update_database S []).1) ∧
    ((LabelScraper.update_database S C).2 = 0 ∧
      (LabelScraper.update_database S C).1 =
        (LabelScraper.update_database S []).1) ∧
    ∀ σ : Sig,
      (Historical.update_database S C).1.countP
          (fun e => decide (sig50 e = σ)) =
        (S.filter dateOk).countP (fun e => decide (sig50 e = σ)) ∧
      (LabelScraper.update_database S C).1.countP
          (fun e => decide (sig50 e = σ)) =
        (S.filter dateOk).countP (fun e => decide (sig50 e = σ)) := by
  have hloop : ∀ cf : Bool,
      dedupLoop sig50 cf C (buildSigs sig50 false S) S 0 =
        (buildSigs sig50 false S, S, 0) := by
    intro cf
    apply dedupLoop_skip_all
    intro c hc
    right
    rw [buildSigs_false]
    obtain ⟨e, he, hesig⟩ := hcov c hc
    exact hesig ▸ List.mem_map_of_mem sig50 he
  have hcount : ∀ σ : Sig,
      ((List.insertionSort storeLe S).filter dateOk).countP
          (fun e => decide (sig50 e = σ)) =
        (S.filter dateOk).countP (fun e => decide (sig50 e = σ)) := by
    intro σ
    calc ((List.insertionSort storeLe S).filter dateOk).countP
          (fun e => decide (sig50 e = σ))
        = (List.insertionSort storeLe S).countP
            (fun e => decide (sig50 e = σ) && dateOk e) :=
          List.countP_filter _ _ _
      _ = S.countP (fun e => decide (sig50 e = σ) && dateOk e) :=
          (List.perm_insertionSort storeLe S).countP_eq _
      _ = (S.filter dateOk).countP (fun e => decide (sig50 e = σ)) :=
          (List.countP_filter _ _ _).symm
  unfold Historical.update_database LabelScraper.update_database
  rw [update_core_eq, update_core_eq, update_core_eq, update_core_eq,
    hloop true, hloop false]
  exact ⟨⟨rfl, rfl⟩, ⟨rfl, rfl⟩, fun σ => ⟨hcount σ, hcount σ⟩⟩

/-- C1, witness: the amended theorem applied to the one-event store
`[exA]` and the candidate batch `[exB]`, for both the filter-bearing
shape and `label_scraper.py`'s. -/
theorem c1_witness :
    ((Historical.update_database [exA] [exB]).2 = 0 ∧
      (Historical.update_database [exA] [exB]).1 =
        (Historical.update_database [exA] []).1) ∧
    ((LabelScraper.update_database [exA] [exB]).2 = 0 ∧
      (LabelScraper.update_database [exA] [exB]).1 =
        (LabelScraper.update_database [exA] []).1) ∧
    (Historical.update_database [exA] [exB]).1.countP
        (fun e => decide (sig50 e = sig50 exA)) =
      ([exA].filter dateOk).countP (fun e => decide (sig50 e = sig50 exA)) :=
  ⟨(c1_amended [exA] [exB] (by decide)).1,
   (c1_amended [exA] [exB] (by decide)).2.1,
   ((c1_amended [exA] [exB] (by decide)).2.2 (sig50 exA)).1⟩

/-- C2, counterexample: merging is not idempotent in `addedCount`.  A
candidate with an empty date (`exEmpty`) is accepted and counted by
`tracker.py`'s `update_database` but then removed by the final
`date >= '2024-01-01'` write filter, so re-merging the same batch
against the store produced by the first merge counts it again:
`added_count = 1` on the second call, not 0 as the claim states. -/
theorem c2_counterexample :
    (Tracker.update_database [] [exEmpty]).2 = 1 ∧
    (Tracker.update_database
      (Tracker.update_database [] [exEmpty]).1 [exEmpty]).2 = 1 := by decide

/-- C2, amended: for every `update_database` variant with the candidate
date filter (`tracker.py`, `historical_scraper.py`,
`clinicaltrials_scraper.py`, `sec_edgar_scraper.py`; any signature
function whose middle component is the date, with or without the stale
skip), re-merging the same candidate batch against the store produced by
a first merge always returns a bit-for-bit-equal store; and the second
call's `added_count` is 0 provided every candidate carries a non-empty
date (an empty-date candidate is re-counted on every run, see the
counterexample). -/
theorem c2_amended (sigf : Event → Sig) (hs : ∀ e, (sigf e).2.1 = e.date)
    (ss : Bool) (S C : List Event) :
    (update_database_core sigf ss true
        (update_database_core sigf ss true S C).1 C).1 =
      (update_database_core sigf ss true S C).1 ∧
    ((∀ c ∈ C, c.date ≠ "") →
      (update_database_core sigf ss true
        (update_database_core sigf ss true S C).1 C).2 = 0) := by
  have hkey := merge_key_covered sigf hs ss S C
  constructor
  · obtain ⟨extra, hacc, hprop⟩ :=
      dedupLoop_acc sigf true C
        (buildSigs sigf ss (update_database_core sigf ss true S C).1)
        (update_database_core sigf ss true S C).1 0
    rw [update_core_fst, hacc, filter_insertionSort, List.filter_append]
    have h1 : (update_database_core sigf ss true S C).1.filter dateOk =
        (update_database_core sigf ss true S C).1 :=
      List.filter_eq_self.mpr (fun a ha => store_all_dateOk sigf ss true S C a ha)
    have h2 : extra.filter dateOk = [] := by
      apply List.filter_eq_nil_iff.mpr
      intro a ha hok
      exact (hprop a ha).2.1 (hkey a (hprop a ha).1 hok)
    rw [h1, h2, List.append_nil]
    exact List.Sorted.insertionSort_eq (store_sorted sigf ss true S C)
  · intro hne
    rw [update_core_snd, dedupLoop_skip_all sigf true C _ _ 0 ?_]
    intro c hc
    by_cases hstale : isStaleDate c.date = true
    · left
      rw [hstale, Bool.and_true]
    · right
      exact hkey c hc
        (dateOk_of_not_stale (hne c hc) (Bool.not_eq_true _ ▸ hstale))

/-- C2, witness: the amended idempotence theorem applied with the
50-character signature to the store `[exA]` and the non-empty-dated
candidate batch `[exB]`. -/
theorem c2_witness :
    (update_database_core sig50 false true
        (update_database_core sig50 false true [exA] [exB]).1 [exB]).1 =
      (update_database_core sig50 false true [exA] [exB]).1 ∧
    (update_database_core sig50 false true
        (update_database_core sig50 false true [exA] [exB]).1 [exB]).2 = 0 :=
  ⟨(c2_amended sig50 (fun _ => rfl) false [exA] [exB]).1,
   (c2_amended sig50 (fun _ => rfl) false [exA] [exB]).2 (by decide)⟩

/-- C3, counterexample: in `clinicaltrials_scraper.py` (lines 207-210,
and identically `sec_edgar_scraper.py` lines 273-276) the
`existing_signatures` set is built from *every* existing item, without
first discarding stale (pre-cutoff) ones: for the store `[exStale]` it
contains the stale event's signature, whereas building it from the
stale-discarded store would leave it empty. -/
theorem c3_counterexample :
    ClinicalTrials.existing_signatures [exStale] = [sig50 exStale] ∧
    isStaleDate exStale.date = true ∧
    (([exStale].filter (fun e => !(isStaleDate e.date))).map sig50) = [] := by
  decide

/-- C3, amended: only `tracker.py` builds the signature set after
discarding stale existing events; the truncating scrapers build it from
the whole store.  This is observationally equivalent: because a
signature contains the date, a candidate matching a stale signature is
itself stale and is skipped by the candidate date filter, so the merge
result is unchanged by discarding stale entries first; and a stale
existing event is dropped from the written store in every variant,
whether or not any candidate replaces it. -/
theorem c3_amended (sigf : Event → Sig) (hs : ∀ e, (sigf e).2.1 = e.date)
    (S C : List Event) :
    Tracker.existing_signatures S =
      (S.filter (fun e => !(isStaleDate e.date))).map sigFull ∧
    update_database_core sigf false true S C =
      update_database_core sigf true true S C ∧
    ∀ e : Event, isStaleDate e.date = true →
      e ∉ (update_database_core sigf false true S C).1 := by
  refine ⟨buildSigs_true sigFull S, ?_, ?_⟩
  · have hpair : (dedupLoop sigf true C (buildSigs sigf false S) S 0).2 =
        (dedupLoop sigf true C (buildSigs sigf true S) S 0).2 := by
      apply dedupLoop_congr sigf hs
      intro s hnst
      constructor
      · intro hmem
        rw [buildSigs_false] at hmem
        obtain ⟨e, he, hesig⟩ := List.mem_map.mp hmem
        apply hesig ▸ mem_buildSigs sigf true S e he
        intro _
        rw [← hs e, hesig]
        exact hnst
      · intro hmem
        obtain ⟨e, he, hesig, _⟩ := buildSigs_mem_elim sigf true S s hmem
        rw [buildSigs_false]
        exact hesig ▸ List.mem_map_of_mem sigf he
    rw [update_core_eq, update_core_eq,
      congrArg Prod.fst hpair, congrArg Prod.snd hpair]
  · intro e hst hmem
    have hok := store_all_dateOk sigf false true S C e hmem
    rw [stale_false_of_dateOk hok] at hst
    cases hst

/-- C3, witness: the amended theorem applied with the 50-character
signature to the store `[exStale]` and an empty candidate batch. -/
theorem c3_witness :
    Tracker.existing_signatures [exStale] =
      (([exStale].filter (fun e => !(isStaleDate e.date))).map sigFull) ∧
    update_database_core sig50 false true [exStale] [] =
      update_database_core sig50 true true [exStale] [] ∧
    exStale ∉ (update_database_core sig50 false true [exStale] []).1 :=
  ⟨(c3_amended sig50 (fun _ => rfl) [exStale] []).1,
   (c3_amended sig50 (fun _ => rfl) [exStale] []).2.1,
   (c3_amended sig50 (fun _ => rfl) [exStale] []).2.2 exStale (by decide)⟩

/-- C4: windowing.  In every `update_database` variant (any signature
function, with or without the stale skip and the candidate date filter),
every event in the written store has a date at or above the cutoff
`'2024-01-01'` (so in particular every event with a known, non-empty
date does), and merging an empty candidate batch removes any event dated
strictly below the cutoff from the output. -/
theorem c4_windowing (sigf : Event → Sig) (ss cf : Bool) (S C : List Event) :
    (∀ e ∈ (update_database_core sigf ss cf S C).1,
      e.date ≠ "" → strLe cutoff e.date = true) ∧
    ∀ e : Event, strLt e.date cutoff = true →
      e ∉ (update_database_core sigf ss cf S []).1 := by
  constructor
  · intro e he _
    exact store_all_dateOk sigf ss cf S C e he
  · intro e hlt hmem
    have hok := store_all_dateOk sigf ss cf S [] e hmem
    unfold dateOk strLe at hok
    rw [Bool.not_eq_true'] at hok
    rw [hok] at hlt
    cases hlt

/-- C4, witness: the windowing theorem applied to the concrete store
`[exGood, exStale]`: the retained event is at or above the cutoff and
the pre-cutoff event is purged by an empty-batch merge. -/
theorem c4_witness :
    strLe cutoff exGood.date = true ∧
    exStale ∉ (update_database_core sigFull true true [exGood, exStale] []).1 :=
  ⟨(c4_windowing sigFull true true [exGood, exStale] []).1 exGood
      (by decide) (by decide),
   (c4_windowing sigFull true true [exGood, exStale] []).2 exStale (by decide)⟩

/-- C5: sort order.  The store written by any `update_database` variant
is non-decreasing by date string; events lacking a date are keyed by the
maximal sentinel `'9999-12-31'`, so every unknown-date event is
positioned after every known-date event (vacuously in the written store,
every one of whose events carries a date at or above the cutoff). -/
theorem c5_sort_order (sigf : Event → Sig) (ss cf : Bool) (S C : List Event) :
    (update_database_core sigf ss cf S C).1.Pairwise
      (fun a b => strLe a.date b.date = true) ∧
    (update_database_core sigf ss cf S C).1.Pairwise
      (fun a b => a.date = "" → b.date = "") ∧
    ∀ e : Event, e.date = "" → sortKeyFn e = maxDateSentinel := by
  refine ⟨?_, ?_, ?_⟩
  · apply List.Pairwise.imp_of_mem ?_ (store_sorted sigf ss cf S C)
    intro a b ha hb hr
    have hna := date_ne_empty_of_dateOk (store_all_dateOk sigf ss cf S C a ha)
    have hnb := date_ne_empty_of_dateOk (store_all_dateOk sigf ss cf S C b hb)
    unfold storeLe sortKeyFn at hr
    rw [if_neg hna, if_neg hnb] at hr
    exact hr
  · apply List.Pairwise.imp_of_mem ?_ (store_sorted sigf ss cf S C)
    intro a b ha _ _ hemp
    exact absurd hemp
      (date_ne_empty_of_dateOk (store_all_dateOk sigf ss cf S C a ha))
  · intro e h
    unfold sortKeyFn
    rw [if_pos h]

/-- C5, witness: the sort-order theorem applied to a concrete
out-of-order store, plus the sentinel key of a concrete dateless
event. -/
theorem c5_witness :
    (update_database_core sigFull true true [exGood, exA] []).1.Pairwise
      (fun a b => strLe a.date b.date = true) ∧
    sortKeyFn exEmpty = maxDateSentinel :=
  ⟨(c5_sort_order sigFull true true [exGood, exA] []).1,
   (c5_sort_order sigFull true true [exGood, exA] []).2.2 exEmpty rfl⟩

/-- C6: `matchByAnyLongToken` is deterministic in universe order.  When
it returns a company, the universe splits as `pre ++ c :: post` where
`c` has a long-token hit in the text and nothing in `pre` does (so `c`
is the *first* match in list order); when no company has a hit it
returns no match; and on the spec's example universe
`["Vertex", "Vertex Pharmaceuticals"]` with text
`"Vertex Pharmaceuticals announces..."` it returns `"Vertex"`. -/
theorem c6_match_determinism :
    (∀ (targets : List String) (text c : String),
      matchByAnyLongToken targets text = some c →
      ∃ pre post, targets = pre ++ c :: post ∧ tokenHit c text = true ∧
        ∀ d ∈ pre, tokenHit d text = false) ∧
    (∀ (targets : List String) (text : String),
      (∀ d ∈ targets, tokenHit d text = false) →
      matchByAnyLongToken targets text = none) ∧
    matchByAnyLongToken ["Vertex", "Vertex Pharmaceuticals"]
      "Vertex Pharmaceuticals announces..." = some "Vertex" := by
  refine ⟨?_, ?_, by decide⟩
  · intro targets
    induction targets with
    | nil => intro text c h; cases h
    | cons a rest ih =>
      intro text c h
      simp only [matchByAnyLongToken] at h
      by_cases ha : tokenHit a text = true
      · rw [if_pos ha] at h
        obtain rfl : a = c := Option.some.inj h
        exact ⟨[], rest, rfl, ha, fun d hd => absurd hd (List.not_mem_nil d)⟩
      · rw [if_neg ha] at h
        obtain ⟨pre, post, hsplit, hhit, hpre⟩ := ih text c h
        refine ⟨a :: pre, post, by rw [hsplit]; rfl, hhit, ?_⟩
        intro d hd
        rcases List.mem_cons.mp hd with rfl | hd2
        · exact Bool.not_eq_true _ ▸ ha
        · exact hpre d hd2
  · intro targets
    induction targets with
    | nil => intro text _; rfl
    | cons a rest ih =>
      intro text h
      simp only [matchByAnyLongToken]
      rw [if_neg (by rw [h a (List.mem_cons_self a rest)]; exact Bool.false_ne_true)]
      exact ih text (fun d hd => h d (List.mem_cons_of_mem a hd))

/-- C6, witness: the characterization applied to the spec's example
(the first-match decomposition puts `"Vertex"` first with an empty
prefix). -/
theorem c6_witness :
    ∃ pre post,
      ["Vertex", "Vertex Pharmaceuticals"] = pre ++ "Vertex" :: post ∧
      tokenHit "Vertex" "Vertex Pharmaceuticals announces..." = true ∧
      ∀ d ∈ pre, tokenHit d "Vertex Pharmaceuticals announces..." = false :=
  c6_match_determinism.1 ["Vertex", "Vertex Pharmaceuticals"]
    "Vertex Pharmaceuticals announces..." "Vertex" (by decide)

/-- C7, counterexample: quarter labels are *not* resolved uniformly to
day 28.  `tracker.py`'s RSS scanner (line 336) uses
`calendar.monthrange` and resolves `"Q1 2026"` to the true last day of
March, `"2026-03-31"`, not `"2026-03-28"` as the claim asserts for every
quarter-parsing site. -/
theorem c7_counterexample :
    Tracker.rss_parse_capture "Q1 2026" = some "2026-03-31" ∧
    ("2026-03-31" : String) ≠ "2026-03-28" := by decide

/-- C7, amended: the normalization examples hold as stated in
`clinicaltrials_scraper.py` (`"2026-03"` → `"2026-03-28"`) and in
`sec_edgar_scraper.py` (`"March 15, 2026"` → `"2026-03-15"`,
`"March 2026"` → `"2026-03-01"`, `"Q1 2026"` → `"2026-03-28"`);
`tracker.py`'s RSS scanner agrees on the textual formats but resolves
quarter labels to the true end of month, `"Q1 2026"` → `"2026-03-31"`,
so the day-28 quarter convention is not applied uniformly. -/
theorem c7_amended :
    ClinicalTrials.normalize_completion_date "2026-03" = some "2026-03-28" ∧
    SecEdgar.extract_pdufa_date (some "March 15, 2026") = some "2026-03-15" ∧
    SecEdgar.extract_pdufa_date (some "March 2026") = some "2026-03-01" ∧
    SecEdgar.extract_pdufa_date (some "Q1 2026") = some "2026-03-28" ∧
    Tracker.rss_parse_capture "March 15, 2026" = some "2026-03-15" ∧
    Tracker.rss_parse_capture "March 2026" = some "2026-03-01" ∧
    Tracker.rss_parse_capture "Q1 2026" = some "2026-03-31" := by decide

/-- C8, counterexample: date-normalization failure is not always
explicit.  `sec_edgar_scraper.py`'s `extract_pdufa_date` returns the raw
captured fragment when no format and no quarter rule parses it
(line 180, `return date_str`): on the capture `"Foobar 15, 2026"` (from
a filing text such as `"PDUFA date of Foobar 15, 2026"`, matched by the
first `DATE_PATTERNS` entry) it returns that fragment unchanged — a
non-canonical guessed string, not a "no date" result. -/
theorem c8_counterexample :
    SecEdgar.extract_pdufa_date (some "Foobar 15, 2026") =
      some "Foobar 15, 2026" ∧
    isCanonicalDate "Foobar 15, 2026" = false := by decide

/-- C8, amended: `tracker.py`'s RSS date extractor does satisfy the
claim — for every captured fragment it either reports an explicit
"no date" (`None`, and the caller falls back to the publication date) or
returns a date assembled by the canonical `YYYY-MM-DD` formatter from
parsed, validated components, never echoing unparsed input.
`sec_edgar_scraper.py`'s extractor instead returns the raw capture
whenever every format and the quarter rule fail on it. -/
theorem c8_amended :
    (∀ s : String, Tracker.rss_parse_capture s = none ∨
      ∃ y m d, Tracker.rss_parse_capture s = some (dateFmt y m d)) ∧
    (∀ s : String, secFormats (stripCommas s) = none →
      quarterMatch s = none → SecEdgar.parse_capture s = some s) ∧
    Tracker.rss_parse_capture "Foobar 15, 2026" = none := by
  refine ⟨?_, ?_, by decide⟩
  · intro s
    unfold Tracker.rss_parse_capture
    cases h1 : rssFormats (stripCommas s) with
    | some r =>
      right
      obtain ⟨y, m, d⟩ := r
      exact ⟨y, m, d, rfl⟩
    | none =>
      cases h2 : quarterMatch s with
      | some q =>
        right
        obtain ⟨qq, y⟩ := q
        exact ⟨y, qq * 3, daysInMonth y (qq * 3), rfl⟩
      | none => left; rfl
  · intro s h1 h2
    unfold SecEdgar.parse_capture
    rw [h1, h2]

/-- C8, witness: the amended theorem applied to the raw-echo capture
`"Foobar 15, 2026"` and to a parseable capture. -/
theorem c8_witness :
    SecEdgar.parse_capture "Foobar 15, 2026" = some "Foobar 15, 2026" ∧
    (Tracker.rss_parse_capture "March 15, 2026" = none ∨
      ∃ y m d, Tracker.rss_parse_capture "March 15, 2026" =
        some (dateFmt y m d)) :=
  ⟨c8_amended.2.1 "Foobar 15, 2026" (by decide) (by decide),
   c8_amended.1 "March 15, 2026"⟩

/-- C9, counterexample: not every malformed/corrupt state of the store
file is treated as empty.  The loading prologue catches only
`json.JSONDecodeError`, so content that decodes to a non-list — `42`
(iterated by the signature loop: `TypeError`) or `"abc"` (iterates
character-wise, then `item.get` raises `AttributeError`), or a bare
record dict `{...}` (iterates key-wise, then `AttributeError`) — and
content whose read raises `UnicodeDecodeError` all crash
`update_database` with an uncaught exception instead of merging from an
empty collection. -/
theorem c9_counterexample :
    Tracker.update_database_file (StoreFile.decoded (Json.num 42)) [] =
      Except.error "TypeError" ∧
    Tracker.update_database_file (StoreFile.decoded (Json.str "abc")) [] =
      Except.error "AttributeError" ∧
    Tracker.update_database_file (StoreFile.decoded (Json.record exGood)) [] =
      Except.error "AttributeError" ∧
    Tracker.update_database_file StoreFile.unreadable [] =
      Except.error "UnicodeDecodeError" ∧
    Historical.update_database_file (StoreFile.decoded (Json.num 42)) [] =
      Except.error "TypeError" :=
  ⟨rfl, rfl, rfl, rfl, rfl⟩

/-- C9, amended: an absent file, whitespace-only content, and content
raising `json.JSONDecodeError` are all treated as an empty store — for
every candidate batch the merge proceeds exactly as from an explicitly
empty store — and a decoded array of scraper-written records merges
normally; but content that json-decodes to a non-list value, and
content whose read raises `UnicodeDecodeError`, crash `update_database`
with an uncaught exception (only `json.JSONDecodeError` is caught). -/
theorem c9_amended (C : List Event) :
    Tracker.update_database_file .absent C =
      .ok (Tracker.update_database [] C) ∧
    Tracker.update_database_file .blank C =
      .ok (Tracker.update_database [] C) ∧
    Tracker.update_database_file .undecodable C =
      .ok (Tracker.update_database [] C) ∧
    Historical.update_database_file .absent C =
      .ok (Historical.update_database [] C) ∧
    Historical.update_database_file .undecodable C =
      .ok (Historical.update_database [] C) ∧
    (∀ es : List Event,
      Tracker.update_database_file (.decoded (Json.arr (es.map Json.record))) C =
        .ok (Tracker.update_database es C)) ∧
    (∀ n : Int,
      Tracker.update_database_file (.decoded (Json.num n)) C =
        Except.error "TypeError") := by
  refine ⟨rfl, rfl, rfl, rfl, rfl, ?_, fun n => rfl⟩
  intro es
  unfold Tracker.update_database_file loadStore
  simp only [pyIterate, asRecords_map]

/-- C10 (implicit): no unknown-date event is ever persisted.  In every
`update_database` variant the written store contains only events with a
non-empty date (the final `date >= '2024-01-01'` filter removes them
all), while an empty-date candidate is accepted into the in-memory batch
and counted — both `tracker.py` and `label_scraper.py` (which lacks even
the candidate date filter) report `added_count = 1` for `exEmpty` yet
write an empty store. -/
theorem c10_no_unknown_date_persisted (sigf : Event → Sig) (ss cf : Bool)
    (S C : List Event) :
    (∀ e ∈ (update_database_core sigf ss cf S C).1, e.date ≠ "") ∧
    (Tracker.update_database [] [exEmpty]).2 = 1 ∧
    (Tracker.update_database [] [exEmpty]).1 = [] ∧
    (LabelScraper.update_database [] [exEmpty]).2 = 1 ∧
    (LabelScraper.update_database [] [exEmpty]).1 = [] := by
  refine ⟨?_, by decide, by decide, by decide, by decide⟩
  intro e he
  exact date_ne_empty_of_dateOk (store_all_dateOk sigf ss cf S C e he)

/-- C10, witness: the theorem applied to a store whose one event
survives the write, showing its date is non-empty. -/
theorem c10_witness : exGood.date ≠ "" :=
  (c10_no_unknown_date_persisted sigFull true true [exGood] []).1 exGood
    (by decide)

end PharmaTracker
